import Mathlib

/-!
Verification of `killswitch_std` (src/src/lib.rs): a kill-switch
primitive built from an `Arc<AtomicBool>`, with a full-capability
handle `KillSwitch` and a read-only handle `KillSwitchWatcher`.

The embedding models the heap of atomic booleans as a `World`
(a total map from cell indices to their current value, plus an
allocation bound), and each Rust handle as a structure holding the
index of its shared cell (the `Arc` pointer).  The sequential
semantics of the API is given both as per-handle functions that
mirror the Rust method bodies, and as a trace-level step relation
`step` over a system state `Sys` used for the temporal properties.
-/

/-- The heap of atomic booleans: models allocation of
`Arc<AtomicBool>` cells.  `flags i` is the current value of cell `i`;
indices at or beyond `next` are unallocated and conventionally hold
`true`. -/
structure World where
  flags : Nat → Bool
  next : Nat

/-- The empty heap: nothing allocated yet. -/
def World.init : World := ⟨fun _ => true, 0⟩

/-- `pub struct KillSwitch { switch: Arc<AtomicBool> }` — the shared
pointer is modelled by the index of the shared cell. -/
structure KillSwitch where
  switch : Nat
  deriving DecidableEq, Repr

/-- `pub struct KillSwitchWatcher { switch: Arc<AtomicBool> }`. -/
structure KillSwitchWatcher where
  switch : Nat
  deriving DecidableEq, Repr

/-- `KillSwitchWatcher::is_alive`: `self.switch.load(Relaxed)`. -/
def KillSwitchWatcher.is_alive (w : KillSwitchWatcher) (σ : World) : Bool :=
  σ.flags w.switch

/-- `KillSwitch::is_alive`: `self.switch.load(Relaxed)`. -/
def KillSwitch.is_alive (k : KillSwitch) (σ : World) : Bool :=
  σ.flags k.switch

/-- `KillSwitch::kill`: `self.switch.store(false, Relaxed)`.  The
source returns `()` (unit), unconditionally; there is no check of the
current value and no error value. -/
def KillSwitch.kill (k : KillSwitch) (σ : World) : Unit × World :=
  ((), { σ with flags := fun i => if i = k.switch then false else σ.flags i })

/-- `KillSwitch::watcher`: clones the `Arc` into a read-only handle;
the new handle shares the same cell. -/
def KillSwitch.watcher (k : KillSwitch) : KillSwitchWatcher :=
  ⟨k.switch⟩

/-- `#[derive(Clone)]` on `KillSwitch`: clones the `Arc`, yielding a
handle to the same cell. -/
def KillSwitch.clone (k : KillSwitch) : KillSwitch :=
  ⟨k.switch⟩

/-- `#[derive(Clone)]` on `KillSwitchWatcher`. -/
def KillSwitchWatcher.clone (w : KillSwitchWatcher) : KillSwitchWatcher :=
  ⟨w.switch⟩

/-- `impl Default for KillSwitch`: `Arc::new(AtomicBool::new(true))` —
allocates a fresh cell holding `true` and returns a handle to it. -/
def KillSwitch.default (σ : World) : KillSwitch × World :=
  (⟨σ.next⟩,
   { flags := fun i => if i = σ.next then true else σ.flags i,
     next := σ.next + 1 })

/-- `impl Display for KillSwitch`: renders `"alive"` when
`self.is_alive()` is true, `"killed"` otherwise. -/
def KillSwitch.display (k : KillSwitch) (σ : World) : String :=
  match k.is_alive σ with
  | true => "alive"
  | false => "killed"

/-- `impl Display for KillSwitchWatcher`: same rendering. -/
def KillSwitchWatcher.display (w : KillSwitchWatcher) (σ : World) : String :=
  match w.is_alive σ with
  | true => "alive"
  | false => "killed"

/-- A client-visible API call in a sequential trace.  Handles are
addressed by their index in the system state's handle lists. -/
inductive Op where
  | create
  | kill (i : Nat)
  | isAliveS (i : Nat)
  | isAliveW (i : Nat)
  | watcherOp (i : Nat)
  | cloneS (i : Nat)
  | cloneW (i : Nat)
  | displayS (i : Nat)
  | displayW (i : Nat)
  deriving DecidableEq, Repr

/-- Value returned to the client by one API call. -/
inductive Out where
  | unit
  | bool (b : Bool)
  | str (s : String)
  deriving DecidableEq, Repr

/-- A sequential system state: the heap plus every live handle the
client holds. -/
structure Sys where
  world : World
  switches : List KillSwitch
  watchers : List KillSwitchWatcher

/-- The initial system state: empty heap, no handles. -/
def Sys.init : Sys := ⟨World.init, [], []⟩

/-- One API call.  `none` means the call does not even denote (the
operation names a handle the client does not hold) — it is never the
result of an operation of the library itself. -/
def step (σ : Sys) : Op → Option (Out × Sys)
  | Op.create =>
      let kw := KillSwitch.default σ.world
      some (Out.unit, ⟨kw.2, σ.switches ++ [kw.1], σ.watchers⟩)
  | Op.kill i =>
      (σ.switches[i]?).map fun k =>
        (Out.unit, ⟨(k.kill σ.world).2, σ.switches, σ.watchers⟩)
  | Op.isAliveS i =>
      (σ.switches[i]?).map fun k => (Out.bool (k.is_alive σ.world), σ)
  | Op.isAliveW i =>
      (σ.watchers[i]?).map fun w => (Out.bool (w.is_alive σ.world), σ)
  | Op.watcherOp i =>
      (σ.switches[i]?).map fun k =>
        (Out.unit, ⟨σ.world, σ.switches, σ.watchers ++ [k.watcher]⟩)
  | Op.cloneS i =>
      (σ.switches[i]?).map fun k =>
        (Out.unit, ⟨σ.world, σ.switches ++ [k.clone], σ.watchers⟩)
  | Op.cloneW i =>
      (σ.watchers[i]?).map fun w =>
        (Out.unit, ⟨σ.world, σ.switches, σ.watchers ++ [w.clone]⟩)
  | Op.displayS i =>
      (σ.switches[i]?).map fun k => (Out.str (k.display σ.world), σ)
  | Op.displayW i =>
      (σ.watchers[i]?).map fun w => (Out.str (w.display σ.world), σ)

/-- Run a list of calls, keeping only the final state. -/
def run (σ : Sys) : List Op → Option Sys
  | [] => some σ
  | op :: ops =>
      match step σ op with
      | none => none
      | some p => run p.2 ops

/-- Well-formedness of a system state: unallocated cells hold `true`
and every handle points into the allocated region.  Holds for
`Sys.init` and is preserved by `step`. -/
def Sys.WF (σ : Sys) : Prop :=
  (∀ i, σ.world.next ≤ i → σ.world.flags i = true) ∧
  (∀ k ∈ σ.switches, k.switch < σ.world.next) ∧
  (∀ w ∈ σ.watchers, w.switch < σ.world.next)

/-- The cell an observation targets: `some f` when the call is an
`is_alive` on a handle the client holds, whose shared cell is `f`. -/
def Sys.obsFlag (σ : Sys) : Op → Option Nat
  | Op.isAliveS i => (σ.switches[i]?).map KillSwitch.switch
  | Op.isAliveW i => (σ.watchers[i]?).map KillSwitchWatcher.switch
  | _ => none

/-- Does the call name only handles the client holds?  The Rust type
system makes this true of every expressible client program. -/
def opValid (σ : Sys) : Op → Prop
  | Op.create => True
  | Op.kill i => i < σ.switches.length
  | Op.isAliveS i => i < σ.switches.length
  | Op.isAliveW i => i < σ.watchers.length
  | Op.watcherOp i => i < σ.switches.length
  | Op.cloneS i => i < σ.switches.length
  | Op.cloneW i => i < σ.watchers.length
  | Op.displayS i => i < σ.switches.length
  | Op.displayW i => i < σ.watchers.length

/-! ## Basic lemmas about the per-handle operations -/

lemma kill_flags (k : KillSwitch) (σ : World) (i : Nat) :
    ((k.kill σ).2).flags i = if i = k.switch then false else σ.flags i := rfl

lemma kill_next (k : KillSwitch) (σ : World) : ((k.kill σ).2).next = σ.next := rfl

lemma kill_kill (k : KillSwitch) (σ : World) :
    (k.kill (k.kill σ).2).2 = (k.kill σ).2 := by
  simp only [KillSwitch.kill, World.mk.injEq, and_true]
  funext i
  by_cases h : i = k.switch <;> simp [h]

/-! ## Preservation lemmas for the trace semantics -/

lemma step_WF {σ : Sys} {op : Op} {p : Out × Sys}
    (hwf : σ.WF) (h : step σ op = some p) : p.2.WF := by
  obtain ⟨o, σ'⟩ := p
  change σ'.WF
  obtain ⟨h1, h2, h3⟩ := hwf
  cases op with
  | create =>
      simp only [step, KillSwitch.default, Option.some.injEq, Prod.mk.injEq] at h
      obtain ⟨-, hσ'⟩ := h
      subst hσ'
      dsimp only [Sys.WF]
      refine ⟨?_, ?_, ?_⟩
      · intro i hi
        have : i ≠ σ.world.next := by omega
        simpa [this] using h1 i (by omega)
      · intro k hk
        rcases List.mem_append.mp hk with hk | hk
        · exact Nat.lt_succ_of_lt (h2 k hk)
        · simp only [List.mem_singleton] at hk
          subst hk
          exact Nat.lt_succ_self _
      · intro w hw
        exact Nat.lt_succ_of_lt (h3 w hw)
  | kill i =>
      simp only [step, Option.map_eq_some'] at h
      obtain ⟨k, hk, heq⟩ := h
      obtain ⟨-, hσ'⟩ := Prod.mk.injEq .. ▸ heq
      subst hσ'
      dsimp only [Sys.WF]
      have hklt : k.switch < σ.world.next := h2 k (List.getElem?_mem hk)
      refine ⟨?_, h2, h3⟩
      · intro j hj
        rw [kill_next] at hj
        rw [kill_flags]
        have : j ≠ k.switch := by omega
        simpa [this] using h1 j hj
  | isAliveS i =>
      simp only [step, Option.map_eq_some'] at h
      obtain ⟨k, hk, heq⟩ := h
      obtain ⟨-, hσ'⟩ := Prod.mk.injEq .. ▸ heq
      subst hσ'
      dsimp only [Sys.WF]
      exact ⟨h1, h2, h3⟩
  | isAliveW i =>
      simp only [step, Option.map_eq_some'] at h
      obtain ⟨w, hw, heq⟩ := h
      obtain ⟨-, hσ'⟩ := Prod.mk.injEq .. ▸ heq
      subst hσ'
      dsimp only [Sys.WF]
      exact ⟨h1, h2, h3⟩
  | watcherOp i =>
      simp only [step, Option.map_eq_some'] at h
      obtain ⟨k, hk, heq⟩ := h
      obtain ⟨-, hσ'⟩ := Prod.mk.injEq .. ▸ heq
      subst hσ'
      dsimp only [Sys.WF]
      refine ⟨h1, h2, ?_⟩
      intro w hw
      rcases List.mem_append.mp hw with hw | hw
      · exact h3 w hw
      · simp only [List.mem_singleton] at hw
        subst hw
        exact h2 k (List.getElem?_mem hk)
  | cloneS i =>
      simp only [step, Option.map_eq_some'] at h
      obtain ⟨k, hk, heq⟩ := h
      obtain ⟨-, hσ'⟩ := Prod.mk.injEq .. ▸ heq
      subst hσ'
      dsimp only [Sys.WF]
      refine ⟨h1, ?_, h3⟩
      intro k' hk'
      rcases List.mem_append.mp hk' with hk' | hk'
      · exact h2 k' hk'
      · simp only [List.mem_singleton] at hk'
        subst hk'
        exact h2 k (List.getElem?_mem hk)
  | cloneW i =>
      simp only [step, Option.map_eq_some'] at h
      obtain ⟨w, hw, heq⟩ := h
      obtain ⟨-, hσ'⟩ := Prod.mk.injEq .. ▸ heq
      subst hσ'
      dsimp only [Sys.WF]
      refine ⟨h1, h2, ?_⟩
      intro w' hw'
      rcases List.mem_append.mp hw' with hw' | hw'
      · exact h3 w' hw'
      · simp only [List.mem_singleton] at hw'
        subst hw'
        exact h3 w (List.getElem?_mem hw)
  | displayS i =>
      simp only [step, Option.map_eq_some'] at h
      obtain ⟨k, hk, heq⟩ := h
      obtain ⟨-, hσ'⟩ := Prod.mk.injEq .. ▸ heq
      subst hσ'
      dsimp only [Sys.WF]
      exact ⟨h1, h2, h3⟩
  | displayW i =>
      simp only [step, Option.map_eq_some'] at h
      obtain ⟨w, hw, heq⟩ := h
      obtain ⟨-, hσ'⟩ := Prod.mk.injEq .. ▸ heq
      subst hσ'
      dsimp only [Sys.WF]
      exact ⟨h1, h2, h3⟩

/-- A concrete heap with one allocated cell, cell 0 killed. -/
def wDemo : World := ⟨fun i => decide (1 ≤ i), 1⟩

/-- A concrete heap with one allocated cell, cell 0 alive. -/
def wAlive : World := ⟨fun _ => true, 1⟩

/-- A concrete system: one switch and one watcher on the killed cell 0. -/
def sysDemo : Sys := ⟨wDemo, [⟨0⟩], [⟨0⟩]⟩

/-- A concrete system: one switch on the alive cell 0, no watchers. -/
def sysAlive : Sys := ⟨wAlive, [⟨0⟩], []⟩

lemma init_WF : Sys.init.WF := by
  refine ⟨fun i _ => rfl, ?_, ?_⟩ <;> intro x hx <;> simp [Sys.init] at hx

lemma sysDemo_WF : sysDemo.WF := by
  refine ⟨?_, ?_, ?_⟩
  · intro i hi
    simp only [sysDemo, wDemo] at hi ⊢
    exact decide_eq_true hi
  · intro k hk
    simp only [sysDemo, List.mem_singleton] at hk
    subst hk
    simp [sysDemo, wDemo]
  · intro w hw
    simp only [sysDemo, List.mem_singleton] at hw
    subst hw
    simp [sysDemo, wDemo]

lemma sysAlive_WF : sysAlive.WF := by
  refine ⟨fun i _ => rfl, ?_, ?_⟩
  · intro k hk
    simp only [sysAlive, List.mem_singleton] at hk
    subst hk
    simp [sysAlive, wAlive]
  · intro w hw
    simp [sysAlive] at hw

lemma step_flag_false {σ : Sys} {op : Op} {p : Out × Sys} {f : Nat}
    (hwf : σ.WF) (hf : σ.world.flags f = false) (h : step σ op = some p) :
    p.2.world.flags f = false := by
  obtain ⟨o, σ'⟩ := p
  change σ'.world.flags f = false
  obtain ⟨h1, h2, h3⟩ := hwf
  have hflt : f < σ.world.next := by
    by_contra hge
    rw [h1 f (by omega)] at hf
    exact absurd hf (by simp)
  cases op with
  | create =>
      simp only [step, KillSwitch.default, Option.some.injEq, Prod.mk.injEq] at h
      obtain ⟨-, hσ'⟩ := h
      subst hσ'
      dsimp only
      have : f ≠ σ.world.next := by omega
      simp [this, hf]
  | kill i =>
      simp only [step, Option.map_eq_some'] at h
      obtain ⟨k, hk, heq⟩ := h
      obtain ⟨-, hσ'⟩ := Prod.mk.injEq .. ▸ heq
      subst hσ'
      dsimp only
      rw [kill_flags]
      by_cases hcase : f = k.switch <;> simp [hcase, hf]
  | isAliveS i =>
      simp only [step, Option.map_eq_some'] at h
      obtain ⟨k, hk, heq⟩ := h
      obtain ⟨-, hσ'⟩ := Prod.mk.injEq .. ▸ heq
      subst hσ'
      exact hf
  | isAliveW i =>
      simp only [step, Option.map_eq_some'] at h
      obtain ⟨w, hw, heq⟩ := h
      obtain ⟨-, hσ'⟩ := Prod.mk.injEq .. ▸ heq
      subst hσ'
      exact hf
  | watcherOp i =>
      simp only [step, Option.map_eq_some'] at h
      obtain ⟨k, hk, heq⟩ := h
      obtain ⟨-, hσ'⟩ := Prod.mk.injEq .. ▸ heq
      subst hσ'
      exact hf
  | cloneS i =>
      simp only [step, Option.map_eq_some'] at h
      obtain ⟨k, hk, heq⟩ := h
      obtain ⟨-, hσ'⟩ := Prod.mk.injEq .. ▸ heq
      subst hσ'
      exact hf
  | cloneW i =>
      simp only [step, Option.map_eq_some'] at h
      obtain ⟨w, hw, heq⟩ := h
      obtain ⟨-, hσ'⟩ := Prod.mk.injEq .. ▸ heq
      subst hσ'
      exact hf
  | displayS i =>
      simp only [step, Option.map_eq_some'] at h
      obtain ⟨k, hk, heq⟩ := h
      obtain ⟨-, hσ'⟩ := Prod.mk.injEq .. ▸ heq
      subst hσ'
      exact hf
  | displayW i =>
      simp only [step, Option.map_eq_some'] at h
      obtain ⟨w, hw, heq⟩ := h
      obtain ⟨-, hσ'⟩ := Prod.mk.injEq .. ▸ heq
      subst hσ'
      exact hf

lemma run_WF {ops : List Op} : ∀ {σ σ' : Sys}, σ.WF → run σ ops = some σ' → σ'.WF := by
  induction ops with
  | nil =>
      intro σ σ' hwf hr
      simp only [run, Option.some.injEq] at hr
      subst hr
      exact hwf
  | cons op ops ih =>
      intro σ σ' hwf hr
      simp only [run] at hr
      cases hstep : step σ op with
      | none => rw [hstep] at hr; cases hr
      | some p =>
          rw [hstep] at hr
          exact ih (step_WF hwf hstep) hr

lemma run_flag_false {ops : List Op} : ∀ {σ σ' : Sys} {f : Nat},
    σ.WF → σ.world.flags f = false → run σ ops = some σ' →
    σ'.world.flags f = false := by
  induction ops with
  | nil =>
      intro σ σ' f hwf hf hr
      simp only [run, Option.some.injEq] at hr
      subst hr
      exact hf
  | cons op ops ih =>
      intro σ σ' f hwf hf hr
      simp only [run] at hr
      cases hstep : step σ op with
      | none => rw [hstep] at hr; cases hr
      | some p =>
          rw [hstep] at hr
          exact ih (step_WF hwf hstep) (step_flag_false hwf hf hstep) hr

lemma obsFlag_step {σ : Sys} {op : Op} {f : Nat} (h : σ.obsFlag op = some f) :
    step σ op = some (Out.bool (σ.world.flags f), σ) := by
  cases op with
  | isAliveS i =>
      simp only [Sys.obsFlag, Option.map_eq_some'] at h
      obtain ⟨k, hk, hf⟩ := h
      subst hf
      simp [step, hk, KillSwitch.is_alive]
  | isAliveW i =>
      simp only [Sys.obsFlag, Option.map_eq_some'] at h
      obtain ⟨w, hw, hf⟩ := h
      subst hf
      simp [step, hw, KillSwitchWatcher.is_alive]
  | create => simp [Sys.obsFlag] at h
  | kill i => simp [Sys.obsFlag] at h
  | watcherOp i => simp [Sys.obsFlag] at h
  | cloneS i => simp [Sys.obsFlag] at h
  | cloneW i => simp [Sys.obsFlag] at h
  | displayS i => simp [Sys.obsFlag] at h
  | displayW i => simp [Sys.obsFlag] at h

/-! ## Claim theorems -/

/-- C1: the claim says `kill()` has type `Result<(), Error>` and that the
second of two sequential `kill()` calls returns `AlreadyKilled`.  In the
code, `kill` unconditionally stores `false` and returns `()`: evaluated
on a fresh switch, both sequential calls return `()` — the second call
reports no error — and the flag ends up killed. -/
theorem kill_twice_no_error_in_code :
    ((KillSwitch.default World.init).1.kill (KillSwitch.default World.init).2).1 = () ∧
    ((KillSwitch.default World.init).1.kill
      ((KillSwitch.default World.init).1.kill (KillSwitch.default World.init).2).2).1 = () ∧
    (KillSwitch.default World.init).1.is_alive
      ((KillSwitch.default World.init).1.kill
        ((KillSwitch.default World.init).1.kill (KillSwitch.default World.init).2).2).2 = false :=
  ⟨rfl, rfl, rfl⟩

/-- C2: a freshly default-constructed switch reports `is_alive = true`,
in any heap; and construction (the `create` step) never fails. -/
theorem fresh_switch_is_alive :
    (∀ σ : World, ((KillSwitch.default σ).1).is_alive (KillSwitch.default σ).2 = true) ∧
    ∀ σ : Sys, (step σ Op.create).isSome = true := by
  constructor
  · intro σ
    simp [KillSwitch.default, KillSwitch.is_alive]
  · intro σ
    simp [step]

/-- C3: monotonicity.  In any well-formed system state, once an
`is_alive` call on a handle sharing cell `f` returns `false`, every
subsequent `is_alive` call (after any further sequence of API calls) on
any handle sharing cell `f` also returns `false`. -/
theorem is_alive_monotone (σ1 σ2 σ3 : Sys) (op1 op2 : Op) (ops : List Op) (f : Nat)
    (hwf : σ1.WF)
    (h1f : σ1.obsFlag op1 = some f)
    (h1 : step σ1 op1 = some (Out.bool false, σ2))
    (hrun : run σ2 ops = some σ3)
    (h2f : σ3.obsFlag op2 = some f) :
    step σ3 op2 = some (Out.bool false, σ3) := by
  have hs1 := obsFlag_step h1f
  rw [h1] at hs1
  simp only [Option.some.injEq, Prod.mk.injEq, Out.bool.injEq] at hs1
  obtain ⟨hb, hσ⟩ := hs1
  subst hσ
  have h3 : σ3.world.flags f = false := run_flag_false hwf hb.symm hrun
  have := obsFlag_step h2f
  rw [h3] at this
  exact this

/-- Witness for C3 at a concrete trace: cell 0 killed, a watcher clone
added afterwards, the later observation still reads `false`. -/
theorem is_alive_monotone_witness :
    step ⟨wDemo, [⟨0⟩], [⟨0⟩, ⟨0⟩]⟩ (Op.isAliveW 1) =
      some (Out.bool false, ⟨wDemo, [⟨0⟩], [⟨0⟩, ⟨0⟩]⟩) :=
  is_alive_monotone sysDemo sysDemo ⟨wDemo, [⟨0⟩], [⟨0⟩, ⟨0⟩]⟩
    (Op.isAliveS 0) (Op.isAliveW 1) [Op.cloneW 0] 0 sysDemo_WF rfl rfl rfl rfl

/-- C4: propagation.  For any watcher sharing the switch's cell
(whether it was derived before the kill or is derived from the switch
after it), `is_alive` reads `false` immediately after `kill`, and a
watcher derived after the kill keeps reading `false` after any further
well-formed sequence of API calls. -/
theorem kill_propagates_to_watchers (k : KillSwitch) (w : KillSwitchWatcher) (σ : World)
    (hshare : w.switch = k.switch) :
    w.is_alive (k.kill σ).2 = false ∧
    (k.watcher).is_alive (k.kill σ).2 = false ∧
    (∀ (σs σ' : Sys) (ops : List Op), σs.WF → σs.world = (k.kill σ).2 →
      run σs ops = some σ' → (k.watcher).is_alive σ'.world = false) := by
  have hkf : ((k.kill σ).2).flags k.switch = false := by
    rw [kill_flags]
    simp
  refine ⟨?_, ?_, ?_⟩
  · simp [KillSwitchWatcher.is_alive, hshare, hkf]
  · simp [KillSwitch.watcher, KillSwitchWatcher.is_alive, hkf]
  · intro σs σ' ops hwf hw hrun
    have hfalse : σs.world.flags k.switch = false := by rw [hw]; exact hkf
    have := run_flag_false hwf hfalse hrun
    simpa [KillSwitch.watcher, KillSwitchWatcher.is_alive] using this

/-- Witness for C4: a concrete watcher of cell 0 reads `false` right
after the switch on cell 0 is killed. -/
theorem kill_propagates_to_watchers_witness :
    (⟨0⟩ : KillSwitchWatcher).is_alive ((⟨0⟩ : KillSwitch).kill wAlive).2 = false :=
  (kill_propagates_to_watchers ⟨0⟩ ⟨0⟩ wAlive rfl).1

/-- C5: display round-trip.  On either handle type, the rendering is
exactly `"alive"` iff `is_alive` reads `true`, and exactly `"killed"`
iff it reads `false`. -/
theorem display_round_trip :
    ∀ (k : KillSwitch) (w : KillSwitchWatcher) (σ : World),
      (k.display σ = "alive" ↔ k.is_alive σ = true) ∧
      (k.display σ = "killed" ↔ k.is_alive σ = false) ∧
      (w.display σ = "alive" ↔ w.is_alive σ = true) ∧
      (w.display σ = "killed" ↔ w.is_alive σ = false) := by
  intro k w σ
  cases hk : k.is_alive σ <;> cases hw : w.is_alive σ <;>
    refine ⟨?_, ?_, ?_, ?_⟩ <;>
      simp only [KillSwitch.display, KillSwitchWatcher.display, hk, hw] <;> decide

/-- C6: after any `kill` step the killed switch's cell reads `false`,
and it still reads `false` after any further sequence of API calls:
the killed state is terminal. -/
theorem kill_terminal (σ1 σ3 : Sys) (i : Nat) (k : KillSwitch) (p : Out × Sys) (ops : List Op)
    (hwf : σ1.WF) (hk : σ1.switches[i]? = some k)
    (hstep : step σ1 (Op.kill i) = some p)
    (hrun : run p.2 ops = some σ3) :
    p.2.world.flags k.switch = false ∧ σ3.world.flags k.switch = false := by
  have h2 : p.2.world.flags k.switch = false := by
    obtain ⟨o, σ'⟩ := p
    change σ'.world.flags k.switch = false
    simp only [step, hk, Option.map_some', Option.some.injEq, Prod.mk.injEq] at hstep
    obtain ⟨-, hσ'⟩ := hstep
    subst hσ'
    dsimp only
    rw [kill_flags]
    simp
  exact ⟨h2, run_flag_false (step_WF hwf hstep) h2 hrun⟩

/-- Witness for C6: killing the sole switch of a concrete live system
leaves its cell `false`, also after the empty continuation. -/
theorem kill_terminal_witness :
    ((Out.unit, (⟨((⟨0⟩ : KillSwitch).kill wAlive).2, [⟨0⟩], []⟩ : Sys)) :
        Out × Sys).2.world.flags (⟨0⟩ : KillSwitch).switch = false ∧
    (⟨((⟨0⟩ : KillSwitch).kill wAlive).2, [⟨0⟩], []⟩ :
        Sys).world.flags (⟨0⟩ : KillSwitch).switch = false :=
  kill_terminal sysAlive ⟨((⟨0⟩ : KillSwitch).kill wAlive).2, [⟨0⟩], []⟩ 0 ⟨0⟩
    (Out.unit, ⟨((⟨0⟩ : KillSwitch).kill wAlive).2, [⟨0⟩], []⟩) [] sysAlive_WF rfl rfl rfl

/-- C7: frame property.  `watcher` and `clone` yield handles sharing
the same cell, and the corresponding steps leave the heap untouched
and keep the original handle lists intact (nothing is consumed or
mutated, only a new handle is appended). -/
theorem watcher_clone_frame (σ : Sys) (i j : Nat) (k : KillSwitch) (w : KillSwitchWatcher)
    (hi : σ.switches[i]? = some k) (hj : σ.watchers[j]? = some w) :
    (k.watcher).switch = k.switch ∧
    (k.clone).switch = k.switch ∧
    (w.clone).switch = w.switch ∧
    step σ (Op.watcherOp i) =
      some (Out.unit, ⟨σ.world, σ.switches, σ.watchers ++ [k.watcher]⟩) ∧
    step σ (Op.cloneS i) =
      some (Out.unit, ⟨σ.world, σ.switches ++ [k.clone], σ.watchers⟩) ∧
    step σ (Op.cloneW j) =
      some (Out.unit, ⟨σ.world, σ.switches, σ.watchers ++ [w.clone]⟩) := by
  refine ⟨rfl, rfl, rfl, ?_, ?_, ?_⟩ <;> simp [step, hi, hj]

/-- Witness for C7 at the concrete system `sysDemo`. -/
theorem watcher_clone_frame_witness :
    ((⟨0⟩ : KillSwitch).watcher).switch = (⟨0⟩ : KillSwitch).switch ∧
    ((⟨0⟩ : KillSwitch).clone).switch = (⟨0⟩ : KillSwitch).switch ∧
    ((⟨0⟩ : KillSwitchWatcher).clone).switch = (⟨0⟩ : KillSwitchWatcher).switch ∧
    step sysDemo (Op.watcherOp 0) =
      some (Out.unit, ⟨sysDemo.world, sysDemo.switches,
        sysDemo.watchers ++ [(⟨0⟩ : KillSwitch).watcher]⟩) ∧
    step sysDemo (Op.cloneS 0) =
      some (Out.unit, ⟨sysDemo.world, sysDemo.switches ++ [(⟨0⟩ : KillSwitch).clone],
        sysDemo.watchers⟩) ∧
    step sysDemo (Op.cloneW 0) =
      some (Out.unit, ⟨sysDemo.world, sysDemo.switches,
        sysDemo.watchers ++ [(⟨0⟩ : KillSwitchWatcher).clone]⟩) :=
  watcher_clone_frame sysDemo 0 0 ⟨0⟩ ⟨0⟩ rfl rfl

/-- C8: totality.  Every API call on handles the client actually holds
succeeds: no operation of the primitive fails, panics or aborts. -/
theorem api_never_fails (σ : Sys) (op : Op) (h : opValid σ op) :
    (step σ op).isSome = true := by
  cases op with
  | create => simp [step]
  | kill i =>
      simp only [opValid] at h
      simp only [step]
      rw [List.getElem?_eq_getElem h]
      rfl
  | isAliveS i =>
      simp only [opValid] at h
      simp only [step]
      rw [List.getElem?_eq_getElem h]
      rfl
  | isAliveW i =>
      simp only [opValid] at h
      simp only [step]
      rw [List.getElem?_eq_getElem h]
      rfl
  | watcherOp i =>
      simp only [opValid] at h
      simp only [step]
      rw [List.getElem?_eq_getElem h]
      rfl
  | cloneS i =>
      simp only [opValid] at h
      simp only [step]
      rw [List.getElem?_eq_getElem h]
      rfl
  | cloneW i =>
      simp only [opValid] at h
      simp only [step]
      rw [List.getElem?_eq_getElem h]
      rfl
  | displayS i =>
      simp only [opValid] at h
      simp only [step]
      rw [List.getElem?_eq_getElem h]
      rfl
  | displayW i =>
      simp only [opValid] at h
      simp only [step]
      rw [List.getElem?_eq_getElem h]
      rfl

/-- Witness for C8: killing the sole switch of `sysDemo` succeeds. -/
theorem api_never_fails_witness : (step sysDemo (Op.kill 0)).isSome = true :=
  api_never_fails sysDemo (Op.kill 0) (by simp [opValid, sysDemo])

/-- C9: `kill` is unconditional and idempotent — it always returns `()`
(there is no error value in its type), and iterating it any positive
number of times yields the same heap as one call. -/
theorem kill_idempotent_unconditional :
    ∀ (k : KillSwitch) (σ : World) (n : Nat),
      (k.kill σ).1 = () ∧
      (fun w => (k.kill w).2)^[n + 1] σ = (k.kill σ).2 := by
  intro k σ n
  refine ⟨rfl, ?_⟩
  induction n with
  | zero => rfl
  | succ m ih =>
      rw [Function.iterate_succ_apply', ih]
      exact kill_kill k σ

/-- C10: `KillSwitch::is_alive` and `KillSwitchWatcher::is_alive` are
the same function of the shared cell: handles sharing a cell agree on
`is_alive` and on their rendering, in every heap. -/
theorem switch_watcher_same_view (k : KillSwitch) (w : KillSwitchWatcher) (σ : World)
    (hshare : w.switch = k.switch) :
    w.is_alive σ = k.is_alive σ ∧ w.display σ = k.display σ := by
  have hal : w.is_alive σ = k.is_alive σ := by
    simp [KillSwitchWatcher.is_alive, KillSwitch.is_alive, hshare]
  refine ⟨hal, ?_⟩
  simp only [KillSwitchWatcher.display, KillSwitch.display, hal]

/-- Witness for C10 on the killed demo heap. -/
theorem switch_watcher_same_view_witness :
    (⟨0⟩ : KillSwitchWatcher).is_alive wDemo = (⟨0⟩ : KillSwitch).is_alive wDemo ∧
    (⟨0⟩ : KillSwitchWatcher).display wDemo = (⟨0⟩ : KillSwitch).display wDemo :=
  switch_watcher_same_view ⟨0⟩ ⟨0⟩ wDemo rfl
